import Mathlib

/-!
Verification development for the SMP scheduler exercised by the FreeRTOS
target tests under Test/Target/tests/smp (schedule_highest_priority,
schedule_equal_priority, disable_preemption, suspend_scheduler,
only_one_task_enter_suspendall).

The repository snapshot contains only the target test sources; the scheduler
kernel itself (tasks.c) is not part of the snapshot.  The scheduler data
model and operations below are therefore modelled from the specification
(spec.md sections 3, 4.1 to 4.5 and 5), while the test-side computations
(the counter loop of only_one_task_enter_suspendall.c and the tick-delta
arithmetic of the busy-wait loops) are embedded directly from the test
sources.
-/

namespace FreeRTOSModel

/-- Modelled from the spec: task states of the missing scheduler core
(spec.md section 3 and 4.4; eTaskGetState values eRunning, eReady,
eBlocked, eSuspended, eDeleted of the absent tasks.c). -/
inductive TaskState where
  | running : TaskState
  | ready : TaskState
  | blocked : TaskState
  | suspended : TaskState
  | deleted : TaskState
deriving DecidableEq, Repr

/-- Modelled from the spec: the Task Control Block fields relevant to the
claims (spec.md section 3): priority, state, and the per-task
preemption-disable flag of the absent tasks.c. -/
structure TCB where
  priority : Nat
  state : TaskState
  preemptionDisabled : Bool
deriving DecidableEq, Repr

/-- Modelled from the spec: the deferred-operations log entries recorded
while the scheduler is suspended (spec.md section 3 Scheduler lock and 4.3):
pending priority changes and pending state transitions of the absent
tasks.c. -/
inductive DeferredOp where
  | setPriority : Nat → Nat → DeferredOp
  | makeReady : Nat → DeferredOp
  | suspendTask : Nat → DeferredOp
deriving DecidableEq, Repr

/-- Modelled from the spec: the single explicitly-owned scheduler state
aggregate (spec.md section 9): TCB store indexed by stable integer handles,
core-run-table, scheduler-lock nesting counter and deferred log of the
absent tasks.c.  Handles at or above numTasks are unused slots. -/
structure SchedulerState where
  numCores : Nat
  numTasks : Nat
  tcbs : Nat → TCB
  coreTable : Nat → Option Nat
  suspendDepth : Nat
  deferred : List DeferredOp

/-- State of the task behind handle h. -/
def stateOf (s : SchedulerState) (h : Nat) : TaskState :=
  (s.tcbs h).state

/-- Priority of the task behind handle h. -/
def prioOf (s : SchedulerState) (h : Nat) : Nat :=
  (s.tcbs h).priority

/-- Preemption-disable flag of the task behind handle h. -/
def preemptionDisabledOf (s : SchedulerState) (h : Nat) : Bool :=
  (s.tcbs h).preemptionDisabled

/-- Modelled from the spec: eTaskGetState of the absent tasks.c reports the
state recorded in the TCB of the queried handle. -/
def eTaskGetState (s : SchedulerState) (h : Nat) : TaskState :=
  stateOf s h

/-- A task pins its core when its preemption is disabled and it is still
Running (spec.md section 4.2 step 1). -/
def isPinned (s : SchedulerState) (h : Nat) : Bool :=
  preemptionDisabledOf s h && (stateOf s h == TaskState.running)

/-- A core is not eligible for reassignment when its current occupant is
pinned (spec.md section 4.2 step 1). -/
def corePinned (s : SchedulerState) (c : Nat) : Bool :=
  match s.coreTable c with
  | none => false
  | some h => isPinned s h

/-- Cores eligible for reassignment, in index order. -/
def freeCores (s : SchedulerState) : List Nat :=
  (List.range s.numCores).filter (fun c => ! corePinned s c)

/-- Still-Running occupants of eligible cores: these tasks compete to keep a
core (spec.md section 4.2 step 2, preference for the incumbent). -/
def incumbents (s : SchedulerState) : List Nat :=
  ((freeCores s).filterMap s.coreTable).filter
    (fun h => stateOf s h == TaskState.running)

/-- Handles of all Ready tasks, in handle order (the arrival order of the
per-priority FIFO queues of spec.md section 4.1 collapsed into one list). -/
def readyTasks (s : SchedulerState) : List Nat :=
  (List.range s.numTasks).filter (fun h => stateOf s h == TaskState.ready)

/-- Candidate tasks of one core-assignment evaluation: Running incumbents of
eligible cores first, then the Ready tasks (spec.md section 4.2 step 2). -/
def candidates (s : SchedulerState) : List Nat :=
  incumbents s ++ readyTasks s

/-- Priority-descending comparison used by the greedy assignment: a precedes
b when the priority of a is at least that of b. -/
def prioGE (s : SchedulerState) (a b : Nat) : Prop :=
  prioOf s b ≤ prioOf s a

instance instDecPrioGE (s : SchedulerState) : DecidableRel (prioGE s) :=
  fun _ _ => Nat.decLe _ _

instance instTotalPrioGE (s : SchedulerState) : IsTotal Nat (prioGE s) :=
  ⟨fun a b => Nat.le_total (prioOf s b) (prioOf s a)⟩

instance instTransPrioGE (s : SchedulerState) : IsTrans Nat (prioGE s) :=
  ⟨fun _ _ _ hab hbc => Nat.le_trans hbc hab⟩

/-- Candidates in priority order, highest first; the sort is stable, so the
FIFO tie-break of spec.md section 4.2 is preserved. -/
def sortedCandidates (s : SchedulerState) : List Nat :=
  List.insertionSort (prioGE s) (candidates s)

/-- Tasks chosen to run on the eligible cores: the greedy assignment of
spec.md section 4.2 step 2 takes the globally highest-priority candidates,
one per eligible core. -/
def chosen (s : SchedulerState) : List Nat :=
  (sortedCandidates s).take (freeCores s).length

/-- New TCB of handle h after one evaluation: chosen tasks Run; a Running
task that was not chosen and is not pinned is returned to Ready (spec.md
section 4.2 step 4); everything else is untouched. -/
def assignTCB (s : SchedulerState) (h : Nat) (t : TCB) : TCB :=
  if h ∈ chosen s then { t with state := TaskState.running }
  else if (t.state == TaskState.running) && ! t.preemptionDisabled then
    { t with state := TaskState.ready }
  else t

/-- New occupant of core c after one evaluation: a pinned core keeps its
task; the i-th eligible core receives the i-th chosen task, or the idle
task (none) when the candidates ran out (spec.md section 4.2 step 3). -/
def newCoreAt (s : SchedulerState) (c : Nat) : Option Nat :=
  if corePinned s c then s.coreTable c
  else (chosen s).get? (List.indexOf c (freeCores s))

/-- Modelled from the spec: one invocation of the core-assignment engine of
the absent tasks.c (spec.md section 4.2): decide which task each core runs,
demote displaced tasks to Ready, leave pinned cores alone. -/
def scheduleAll (s : SchedulerState) : SchedulerState :=
  { s with
    tcbs := fun h => assignTCB s h (s.tcbs h)
    coreTable := fun c => if c < s.numCores then newCoreAt s c else none }

/-- Well-formedness used by the priority theorems: every Running task with a
valid handle actually occupies some core (spec.md section 3, the invariant
that a task is in exactly one collection). -/
def RunningOnCore (s : SchedulerState) : Prop :=
  ∀ h, h < s.numTasks → stateOf s h = TaskState.running →
    ∃ c, c < s.numCores ∧ s.coreTable c = some h

/-- Pointwise TCB update of one handle. -/
def updateTCB (s : SchedulerState) (h : Nat) (f : TCB → TCB) : SchedulerState :=
  { s with tcbs := fun i => if i = h then f (s.tcbs i) else s.tcbs i }

/-- Modelled from the spec: immediate application of one operation of the
absent tasks.c (spec.md section 4.4): a priority change rewrites the
effective priority; resume-by-handle moves a Suspended task to Ready;
suspend-by-handle moves any non-Deleted task to Suspended. -/
def applyDeferredOp (s : SchedulerState) : DeferredOp → SchedulerState
  | DeferredOp.setPriority h p => updateTCB s h (fun t => { t with priority := p })
  | DeferredOp.makeReady h =>
      updateTCB s h (fun t =>
        if t.state == TaskState.suspended then { t with state := TaskState.ready } else t)
  | DeferredOp.suspendTask h =>
      updateTCB s h (fun t =>
        if t.state == TaskState.deleted then t else { t with state := TaskState.suspended })

/-- Modelled from the spec: issuing one readiness-changing operation to the
absent tasks.c.  While suspendDepth is positive the operation is appended to
the deferred log and nothing else changes; otherwise it is applied at once
and the core-assignment engine is re-run synchronously (spec.md sections
4.3 and 5). -/
def issueOp (s : SchedulerState) (op : DeferredOp) : SchedulerState :=
  if 0 < s.suspendDepth then { s with deferred := s.deferred ++ [op] }
  else scheduleAll (applyDeferredOp s op)

/-- Modelled from the spec: vTaskPrioritySet of the absent tasks.c. -/
def vTaskPrioritySet (h p : Nat) (s : SchedulerState) : SchedulerState :=
  issueOp s (DeferredOp.setPriority h p)

/-- Modelled from the spec: vTaskResume of the absent tasks.c. -/
def vTaskResume (h : Nat) (s : SchedulerState) : SchedulerState :=
  issueOp s (DeferredOp.makeReady h)

/-- A NULL task handle passed to a self-or-handle operation denotes the
calling task itself. -/
def resolveHandle (caller : Nat) : Option Nat → Nat
  | none => caller
  | some h => h

/-- Modelled from the spec: vTaskSuspend of the absent tasks.c; a NULL
handle suspends the caller (spec.md section 4.4). -/
def vTaskSuspend (caller : Nat) (xTask : Option Nat) (s : SchedulerState) : SchedulerState :=
  issueOp s (DeferredOp.suspendTask (resolveHandle caller xTask))

/-- Modelled from the spec: vTaskDisablePreemption of the absent tasks.c
(disable_preemption(handle_or_self) in spec.md section 6): sets the
preemption-disable flag of the named task, the caller when NULL. -/
def vTaskDisablePreemption (caller : Nat) (xTask : Option Nat) (s : SchedulerState) :
    SchedulerState :=
  updateTCB s (resolveHandle caller xTask) (fun t => { t with preemptionDisabled := true })

/-- Modelled from the spec: enable_preemption(handle_or_self) of the absent
tasks.c (spec.md section 6): clears the preemption-disable flag of the
named task by handle, the caller when NULL. -/
def vTaskEnablePreemption (caller : Nat) (xTask : Option Nat) (s : SchedulerState) :
    SchedulerState :=
  updateTCB s (resolveHandle caller xTask) (fun t => { t with preemptionDisabled := false })

/-- Modelled from the spec: vTaskSuspendAll of the absent tasks.c increments
the scheduler-lock nesting counter (spec.md section 4.3). -/
def vTaskSuspendAll (s : SchedulerState) : SchedulerState :=
  { s with suspendDepth := s.suspendDepth + 1 }

/-- Replay of the deferred log in arrival order on a state whose lock has
just been released (spec.md section 4.3). -/
def replayDeferred (s : SchedulerState) : SchedulerState :=
  s.deferred.foldl applyDeferredOp { s with suspendDepth := 0, deferred := [] }

/-- Contract-violation outcomes of the scheduler (spec.md section 7). -/
inductive SchedError where
  | contractViolation : SchedError
deriving DecidableEq, Repr

/-- Modelled from the spec: xTaskResumeAll of the absent tasks.c (spec.md
section 4.3): at depth 0 the call is a defined contract violation and the
counter never underflows; from depth 1 the deferred log is replayed in
arrival order and the core-assignment engine runs once; from deeper nesting
the counter only decrements. -/
def xTaskResumeAll (s : SchedulerState) : Except SchedError SchedulerState :=
  if s.suspendDepth = 0 then Except.error SchedError.contractViolation
  else if s.suspendDepth = 1 then Except.ok (scheduleAll (replayDeferred s))
  else Except.ok { s with suspendDepth := s.suspendDepth - 1 }

/-- Loop bound TASK_INCREASE_COUNTER_TIMES of
only_one_task_enter_suspendall.c. -/
def TASK_INCREASE_COUNTER_TIMES : Nat := 10000

/-- Shallow embedding of the increment loop inside loopIncCounter of
only_one_task_enter_suspendall.c: n remaining iterations, the shared
xTaskCounter, the local xTempTaskCounter snapshot and the running
xIsTestPass flag; each iteration increments both and checks that they still
agree. -/
def incLoop : Nat → Int → Int → Bool → Int × Int × Bool
  | 0, c, t, pass => (c, t, pass)
  | Nat.succ n, c, t, pass =>
      incLoop n (c + 1) (t + 1) (pass && decide (c + 1 = t + 1))

/-- Shallow embedding of loopIncCounter of only_one_task_enter_suspendall.c
as executed inside its vTaskSuspendAll/xTaskResumeAll section: starting from
the shared counter value, returns the new counter value and the
xIsTestPass flag. -/
def loopIncCounter (counter : Int) : Int × Bool :=
  ((incLoop TASK_INCREASE_COUNTER_TIMES counter counter true).1,
    (incLoop TASK_INCREASE_COUNTER_TIMES counter counter true).2.2)

/-- Modelled from the spec: the M per-core tasks of
only_one_task_enter_suspendall.c each run loopIncCounter inside one
suspended section; spec.md sections 4.3 and 8 make those sections atomic
with respect to the scheduler bookkeeping, so the absent tasks.c serialises
them in some order, here taken task by task.  Returns the final counter and
the conjunction of every per-task xIsTestPass flag. -/
def runIncTasks : Nat → Int → Int × Bool
  | 0, c => (c, true)
  | Nat.succ m, c =>
      ((runIncTasks m (loopIncCounter c).1).1,
        (loopIncCounter c).2 && (runIncTasks m (loopIncCounter c).1).2)

/-- Modelled from the spec: one tick of the time-slice driver at a fully
occupied priority level of the absent tasks.c (spec.md sections 4.1, 4.2
step 4 and 4.5).  The level is viewed as one cyclic sequence: the running
window followed by the ready queue; the rotation preempts the front running
task to the back of the ready queue and assigns the front ready task. -/
def tickRotate (ring : List Nat) : List Nat :=
  ring.rotate 1

/-- Level contents after n time-slice ticks. -/
def ringAfter (ring : List Nat) : Nat → List Nat
  | 0 => ring
  | Nat.succ n => tickRotate (ringAfter ring n)

/-- Tasks Running at a level occupying the given number of cores: the front
window of the cyclic sequence. -/
def runningWindow (cores : Nat) (ring : List Nat) : List Nat :=
  ring.take cores

/-- The task t reaches the Running state within n ticks. -/
def ranWithin (cores : Nat) (ring : List Nat) (n : Nat) (t : Nat) : Prop :=
  ∃ i, i ≤ n ∧ t ∈ runningWindow cores (ringAfter ring i)

/-- Modulus of the TickType_t arithmetic of the test files: the tick counter
is a 32-bit unsigned integer. -/
def TICK_MOD : Nat := 2 ^ 32

/-- Shallow embedding of the elapsed-time computation
xTaskGetTickCount() - xStartTick of Test_SuspendScheduler,
Test_OnlyOneTaskEnterSuspendAll and Test_ScheduleHighestPirority: C unsigned
subtraction of two TickType_t values, wrapping modulo 2 to the 32. -/
def elapsedTicks (now start : Nat) : Nat :=
  (now + TICK_MOD - start) % TICK_MOD

instance decRunningOnCore (s : SchedulerState) : Decidable (RunningOnCore s) :=
  inferInstanceAs (Decidable (∀ h, h < s.numTasks →
    stateOf s h = TaskState.running → ∃ c, c < s.numCores ∧ s.coreTable c = some h))

/-! Concrete scenario of schedule_highest_priority.c: N cores and N tasks
of strictly descending priority, all initially Ready on idle cores. -/

/-- Modelled from the spec: the initial state of the
schedule_highest_priority.c scenario; task h has priority N - h, so T0 has
the highest priority and priorities are strictly descending. -/
def descendingState (N : Nat) : SchedulerState :=
  { numCores := N
    numTasks := N
    tcbs := fun h =>
      { priority := N - h, state := TaskState.ready, preemptionDisabled := false }
    coreTable := fun _ => none
    suspendDepth := 0
    deferred := [] }

/-! Concrete scenario of disable_preemption.c: N cores; tasks 0 to N - 1
have the higher priorities and are Suspended; task N has the lowest
priority, runs on core 0 with every other core idle, disables its own
preemption and then resumes all the higher-priority tasks. -/

/-- TCB of the lowest-priority task after it disabled its own preemption. -/
def pinnedTCB : TCB :=
  { priority := 1, state := TaskState.running, preemptionDisabled := true }

/-- Modelled from the spec: the disable_preemption.c state just before
vTaskDisablePreemption( NULL ): the N higher-priority tasks (priorities
N + 1 down to 2) suspended themselves and the lowest-priority task N
(priority 1) is the only task running, on core 0. -/
def preemptionScenarioBase (N : Nat) : SchedulerState :=
  { numCores := N
    numTasks := N + 1
    tcbs := fun h =>
      if h < N then
        { priority := N + 1 - h, state := TaskState.suspended, preemptionDisabled := false }
      else
        { priority := 1, state := TaskState.running, preemptionDisabled := false }
    coreTable := fun c => if c = 0 then some N else none
    suspendDepth := 0
    deferred := [] }

/-- The disable_preemption.c scenario: the lowest-priority task disables
its own preemption (NULL handle), then resumes tasks 0 to N - 1 one by one;
each resume triggers a synchronous core-assignment evaluation. -/
def afterPreemptionDisableResumes (N : Nat) : SchedulerState :=
  (List.range N).foldl (fun s h => vTaskResume h s)
    (vTaskDisablePreemption N none (preemptionScenarioBase N))

/-! Concrete states used to witness the theorems below on explicit
inputs. -/

/-- Witness state: one core running the lower-priority task 0, while the
higher-priority task 1 is Ready. -/
def c1WitnessState : SchedulerState :=
  { numCores := 1
    numTasks := 2
    tcbs := fun h =>
      if h = 0 then ⟨5, TaskState.running, false⟩ else ⟨7, TaskState.ready, false⟩
    coreTable := fun c => if c = 0 then some 0 else none
    suspendDepth := 0
    deferred := [] }

/-- Witness state: one core running task 0 with preemption disabled while
the higher-priority task 1 is Ready. -/
def c2WitnessState : SchedulerState :=
  { numCores := 1
    numTasks := 2
    tcbs := fun h =>
      if h = 0 then ⟨1, TaskState.running, true⟩ else ⟨7, TaskState.ready, false⟩
    coreTable := fun c => if c = 0 then some 0 else none
    suspendDepth := 0
    deferred := [] }

/-- Witness state: two running tasks with the scheduler suspended at
depth 1. -/
def c3WitnessState : SchedulerState :=
  { numCores := 2
    numTasks := 2
    tcbs := fun _ => ⟨3, TaskState.running, false⟩
    coreTable := fun c => if c = 0 then some 0 else if c = 1 then some 1 else none
    suspendDepth := 1
    deferred := [] }

/-- Witness state: the caller (task 0) runs on the only core at depth 1
with a deferred resume of the higher-priority task 1 pending. -/
def c4WitnessState : SchedulerState :=
  { numCores := 1
    numTasks := 2
    tcbs := fun h =>
      if h = 0 then ⟨2, TaskState.running, false⟩ else ⟨5, TaskState.suspended, false⟩
    coreTable := fun c => if c = 0 then some 0 else none
    suspendDepth := 1
    deferred := [DeferredOp.makeReady 1] }

/-- Witness state: depth 0, so a resume-all has no matching suspend. -/
def c7WitnessState : SchedulerState :=
  { numCores := 1
    numTasks := 1
    tcbs := fun _ => ⟨1, TaskState.running, false⟩
    coreTable := fun c => if c = 0 then some 0 else none
    suspendDepth := 0
    deferred := [] }

/-- Witness state: task 0 runs with preemption disabled on core 0 of two
cores while the higher-priority tasks 1 and 2 are Ready. -/
def c8WitnessState : SchedulerState :=
  { numCores := 2
    numTasks := 3
    tcbs := fun h =>
      if h = 0 then ⟨1, TaskState.running, true⟩ else ⟨9, TaskState.ready, false⟩
    coreTable := fun c => if c = 0 then some 0 else none
    suspendDepth := 0
    deferred := [] }

/-- Witness state: task 0 is Running on the only core at depth 0. -/
def c9WitnessState : SchedulerState :=
  { numCores := 1
    numTasks := 1
    tcbs := fun _ => ⟨4, TaskState.running, false⟩
    coreTable := fun c => if c = 0 then some 0 else none
    suspendDepth := 0
    deferred := [] }

/-! Helper lemmas about one core-assignment evaluation. -/

theorem prioOf_scheduleAll (s : SchedulerState) (h : Nat) :
    prioOf (scheduleAll s) h = prioOf s h := by
  show (assignTCB s h (s.tcbs h)).priority = (s.tcbs h).priority
  unfold assignTCB
  split
  · rfl
  · split <;> rfl

theorem preemptionDisabledOf_scheduleAll (s : SchedulerState) (h : Nat) :
    preemptionDisabledOf (scheduleAll s) h = preemptionDisabledOf s h := by
  show (assignTCB s h (s.tcbs h)).preemptionDisabled = (s.tcbs h).preemptionDisabled
  unfold assignTCB
  split
  · rfl
  · split <;> rfl

theorem chosen_subset_candidates (s : SchedulerState) :
    chosen s ⊆ candidates s := by
  intro h hmem
  have h1 : h ∈ sortedCandidates s := List.take_subset _ _ hmem
  simpa [sortedCandidates] using h1

theorem state_of_mem_candidates (s : SchedulerState) (h : Nat) (hm : h ∈ candidates s) :
    stateOf s h = TaskState.running ∨ stateOf s h = TaskState.ready := by
  unfold candidates at hm
  rcases List.mem_append.mp hm with hi | hr
  · left
    have := (List.mem_filter.mp hi).2
    simpa using this
  · right
    have := (List.mem_filter.mp hr).2
    simpa using this

theorem ready_mem_candidates (s : SchedulerState) (h : Nat) (hlt : h < s.numTasks)
    (hst : stateOf s h = TaskState.ready) : h ∈ candidates s := by
  unfold candidates readyTasks
  refine List.mem_append.mpr (Or.inr ?_)
  refine List.mem_filter.mpr ⟨List.mem_range.mpr hlt, ?_⟩
  simp [hst]

theorem running_mem_candidates (s : SchedulerState) (hwf : RunningOnCore s) (h : Nat)
    (hlt : h < s.numTasks) (hst : stateOf s h = TaskState.running)
    (hnd : preemptionDisabledOf s h = false) : h ∈ candidates s := by
  obtain ⟨c, hc, hocc⟩ := hwf h hlt hst
  refine List.mem_append.mpr (Or.inl ?_)
  unfold incumbents
  refine List.mem_filter.mpr ⟨?_, by simp [hst]⟩
  refine List.mem_filterMap.mpr ⟨c, ?_, hocc⟩
  unfold freeCores
  refine List.mem_filter.mpr ⟨List.mem_range.mpr hc, ?_⟩
  simp [corePinned, hocc, isPinned, hnd]

theorem stateOf_scheduleAll_running (s : SchedulerState) (h : Nat)
    (hr : stateOf (scheduleAll s) h = TaskState.running) :
    h ∈ chosen s ∨
      (stateOf s h = TaskState.running ∧ preemptionDisabledOf s h = true) := by
  by_cases hc : h ∈ chosen s
  · exact Or.inl hc
  · right
    have hr' : (assignTCB s h (s.tcbs h)).state = TaskState.running := hr
    unfold assignTCB at hr'
    rw [if_neg hc] at hr'
    by_cases hcond :
        (((s.tcbs h).state == TaskState.running) && ! (s.tcbs h).preemptionDisabled) = true
    · rw [if_pos hcond] at hr'
      simp at hr'
    · rw [if_neg hcond] at hr'
      refine ⟨hr', ?_⟩
      have hr'' : (s.tcbs h).state = TaskState.running := hr'
      simp [hr''] at hcond
      simpa [preemptionDisabledOf] using hcond

theorem stateOf_scheduleAll_ready (s : SchedulerState) (h : Nat)
    (hr : stateOf (scheduleAll s) h = TaskState.ready) :
    h ∉ chosen s ∧
      (stateOf s h = TaskState.ready ∨
        (stateOf s h = TaskState.running ∧ preemptionDisabledOf s h = false)) := by
  have hr' : (assignTCB s h (s.tcbs h)).state = TaskState.ready := hr
  unfold assignTCB at hr'
  by_cases hc : h ∈ chosen s
  · rw [if_pos hc] at hr'
    simp at hr'
  · rw [if_neg hc] at hr'
    refine ⟨hc, ?_⟩
    by_cases hcond :
        (((s.tcbs h).state == TaskState.running) && ! (s.tcbs h).preemptionDisabled) = true
    · right
      have hparts := (Bool.and_eq_true _ _).mp hcond
      refine ⟨by simpa [stateOf] using hparts.1, ?_⟩
      have := hparts.2
      simpa [preemptionDisabledOf] using this
    · left
      rw [if_neg hcond] at hr'
      exact hr'

theorem scheduleAll_suspended (s : SchedulerState) (h : Nat)
    (hst : stateOf s h = TaskState.suspended) :
    stateOf (scheduleAll s) h = TaskState.suspended := by
  have hnc : h ∉ chosen s := by
    intro hc
    rcases state_of_mem_candidates s h (chosen_subset_candidates s hc) with h1 | h1 <;>
      simp [hst] at h1
  have hcond :
      ¬((((s.tcbs h).state == TaskState.running) && ! (s.tcbs h).preemptionDisabled) = true) := by
    simp [show (s.tcbs h).state = TaskState.suspended from hst]
  show (assignTCB s h (s.tcbs h)).state = TaskState.suspended
  unfold assignTCB
  rw [if_neg hnc, if_neg hcond]
  exact hst

theorem scheduleAll_no_inversion (s : SchedulerState) (hwf : RunningOnCore s)
    (A B : Nat) (hA : A < s.numTasks) (_hB : B < s.numTasks)
    (hAr : stateOf (scheduleAll s) A = TaskState.ready)
    (hBr : stateOf (scheduleAll s) B = TaskState.running)
    (hBd : preemptionDisabledOf (scheduleAll s) B = false) :
    prioOf (scheduleAll s) A ≤ prioOf (scheduleAll s) B := by
  rw [prioOf_scheduleAll, prioOf_scheduleAll]
  rw [preemptionDisabledOf_scheduleAll] at hBd
  have hBc : B ∈ chosen s := by
    rcases stateOf_scheduleAll_running s B hBr with hc | ⟨_, hd⟩
    · exact hc
    · rw [hBd] at hd
      cases hd
  obtain ⟨hAnc, hAcase⟩ := stateOf_scheduleAll_ready s A hAr
  have hAcand : A ∈ candidates s := by
    rcases hAcase with h1 | ⟨h1, h2⟩
    · exact ready_mem_candidates s A hA h1
    · exact running_mem_candidates s hwf A hA h1 h2
  have hAs : A ∈ sortedCandidates s := by
    simpa [sortedCandidates] using hAcand
  have hsplit := List.take_append_drop (freeCores s).length (sortedCandidates s)
  have hAd : A ∈ (sortedCandidates s).drop (freeCores s).length := by
    rcases List.mem_append.mp (show A ∈ _ ++ _ by rw [hsplit]; exact hAs) with h1 | h1
    · exact absurd h1 hAnc
    · exact h1
  have hsort : List.Pairwise (prioGE s)
      ((sortedCandidates s).take (freeCores s).length ++
        (sortedCandidates s).drop (freeCores s).length) := by
    rw [hsplit]
    exact List.sorted_insertionSort (prioGE s) (candidates s)
  exact (List.pairwise_append.mp hsort).2.2 B hBc A hAd

theorem scheduleAll_pinned_core (s : SchedulerState) (c h : Nat) (hc : c < s.numCores)
    (hocc : s.coreTable c = some h) (hpin : isPinned s h = true) :
    (scheduleAll s).coreTable c = some h ∧
      stateOf (scheduleAll s) h = TaskState.running := by
  have hp : corePinned s c = true := by simp [corePinned, hocc, hpin]
  obtain ⟨hd, hr⟩ : preemptionDisabledOf s h = true ∧ stateOf s h = TaskState.running := by
    have := (Bool.and_eq_true _ _).mp hpin
    exact ⟨this.1, by simpa [stateOf] using this.2⟩
  constructor
  · show (if c < s.numCores then newCoreAt s c else none) = some h
    rw [if_pos hc]
    unfold newCoreAt
    rw [if_pos hp]
    exact hocc
  · show (assignTCB s h (s.tcbs h)).state = TaskState.running
    unfold assignTCB
    by_cases hch : h ∈ chosen s
    · rw [if_pos hch]
    · rw [if_neg hch]
      have hd' : (s.tcbs h).preemptionDisabled = true := hd
      have hcond :
          ¬((((s.tcbs h).state == TaskState.running) && ! (s.tcbs h).preemptionDisabled)
            = true) := by
        simp [hd']
      rw [if_neg hcond]
      exact hr

theorem not_mem_chosen_of_high_count (s : SchedulerState) (h : Nat)
    (hcount : (freeCores s).length ≤
      List.countP (fun x => decide (prioOf s h < prioOf s x)) (candidates s)) :
    h ∉ chosen s := by
  intro hch
  have hperm := List.perm_insertionSort (prioGE s) (candidates s)
  have htotal : List.countP (fun x => decide (prioOf s h < prioOf s x))
      (sortedCandidates s) =
      List.countP (fun x => decide (prioOf s h < prioOf s x)) (candidates s) :=
    hperm.countP_eq _
  have hsplit := List.take_append_drop (freeCores s).length (sortedCandidates s)
  have hcapp : List.countP (fun x => decide (prioOf s h < prioOf s x))
      (sortedCandidates s) =
      List.countP (fun x => decide (prioOf s h < prioOf s x))
        ((sortedCandidates s).take (freeCores s).length) +
      List.countP (fun x => decide (prioOf s h < prioOf s x))
        ((sortedCandidates s).drop (freeCores s).length) := by
    conv_lhs => rw [← hsplit]
    exact List.countP_append _ _ _
  have hfront : List.countP (fun x => decide (prioOf s h < prioOf s x))
      ((sortedCandidates s).take (freeCores s).length) <
      ((sortedCandidates s).take (freeCores s).length).length := by
    have hle := List.countP_le_length
      (p := fun x => decide (prioOf s h < prioOf s x))
      (l := (sortedCandidates s).take (freeCores s).length)
    rcases Nat.lt_or_ge (List.countP (fun x => decide (prioOf s h < prioOf s x))
        ((sortedCandidates s).take (freeCores s).length))
        ((sortedCandidates s).take (freeCores s).length).length with h1 | h1
    · exact h1
    · exfalso
      have heq := Nat.le_antisymm hle h1
      have := List.countP_eq_length.mp heq h hch
      simp at this
  have htk : ((sortedCandidates s).take (freeCores s).length).length ≤
      (freeCores s).length := by
    rw [List.length_take]
    exact min_le_left _ _
  have hback : 0 < List.countP (fun x => decide (prioOf s h < prioOf s x))
      ((sortedCandidates s).drop (freeCores s).length) := by
    omega
  obtain ⟨x, hxd, hxP⟩ := List.countP_pos_iff.mp hback
  have hsort : List.Pairwise (prioGE s)
      ((sortedCandidates s).take (freeCores s).length ++
        (sortedCandidates s).drop (freeCores s).length) := by
    rw [hsplit]
    exact List.sorted_insertionSort (prioGE s) (candidates s)
  have hge : prioOf s x ≤ prioOf s h :=
    (List.pairwise_append.mp hsort).2.2 h hch x hxd
  have hgt : prioOf s h < prioOf s x := by simpa using hxP
  omega

theorem scheduleAll_demote (s : SchedulerState) (h : Nat)
    (hst : stateOf s h = TaskState.running)
    (hnd : preemptionDisabledOf s h = false)
    (hcount : (freeCores s).length ≤
      List.countP (fun x => decide (prioOf s h < prioOf s x)) (candidates s)) :
    stateOf (scheduleAll s) h = TaskState.ready := by
  have hnc : h ∉ chosen s := not_mem_chosen_of_high_count s h hcount
  show (assignTCB s h (s.tcbs h)).state = TaskState.ready
  unfold assignTCB
  rw [if_neg hnc]
  have hst' : (s.tcbs h).state = TaskState.running := hst
  have hnd' : (s.tcbs h).preemptionDisabled = false := hnd
  have hcond :
      (((s.tcbs h).state == TaskState.running) && ! (s.tcbs h).preemptionDisabled) = true := by
    simp [hst', hnd']
  rw [if_pos hcond]

theorem tcb_eq (t : TCB) (p : Nat) (st : TaskState) (b : Bool)
    (h1 : t.priority = p) (h2 : t.state = st) (h3 : t.preemptionDisabled = b) :
    t = ⟨p, st, b⟩ := by
  cases t
  simp_all

theorem issueOp_suspended (s : SchedulerState) (op : DeferredOp)
    (hd : 0 < s.suspendDepth) :
    issueOp s op = { s with deferred := s.deferred ++ [op] } := by
  unfold issueOp
  rw [if_pos hd]

theorem foldl_issueOp_suspended (ops : List DeferredOp) :
    ∀ s : SchedulerState, 0 < s.suspendDepth →
      (ops.foldl issueOp s).tcbs = s.tcbs ∧
      (ops.foldl issueOp s).coreTable = s.coreTable ∧
      (ops.foldl issueOp s).suspendDepth = s.suspendDepth ∧
      (ops.foldl issueOp s).numCores = s.numCores ∧
      (ops.foldl issueOp s).numTasks = s.numTasks ∧
      (ops.foldl issueOp s).deferred = s.deferred ++ ops := by
  induction ops with
  | nil =>
    intro s _
    simp
  | cons op rest ih =>
    intro s hd
    rw [List.foldl_cons, issueOp_suspended s op hd]
    obtain ⟨h1, h2, h3, h4, h5, h6⟩ :=
      ih { s with deferred := s.deferred ++ [op] } (by simpa using hd)
    refine ⟨h1, h2, h3, h4, h5, ?_⟩
    rw [h6]
    simp

theorem scheduleAll_all_run (s : SchedulerState)
    (hlen : (candidates s).length ≤ (freeCores s).length) (h : Nat)
    (hm : h ∈ candidates s) : stateOf (scheduleAll s) h = TaskState.running := by
  have hsl : (sortedCandidates s).length = (candidates s).length :=
    (List.perm_insertionSort (prioGE s) (candidates s)).length_eq
  have hch : h ∈ chosen s := by
    unfold chosen
    rw [List.take_of_length_le (by omega)]
    simpa [sortedCandidates] using hm
  show (assignTCB s h (s.tcbs h)).state = TaskState.running
  unfold assignTCB
  rw [if_pos hch]

theorem descendingState_freeCores (N : Nat) :
    freeCores (descendingState N) = List.range N := by
  unfold freeCores
  refine List.filter_eq_self.mpr ?_
  intro c _
  simp [corePinned, descendingState]

theorem descendingState_candidates (N : Nat) :
    candidates (descendingState N) = List.range N := by
  unfold candidates
  have hinc : incumbents (descendingState N) = [] := by
    unfold incumbents
    have : List.filterMap (descendingState N).coreTable (freeCores (descendingState N))
        = [] := by
      refine List.filterMap_eq_nil_iff.mpr ?_
      intro a _
      rfl
    rw [this]
    rfl
  have hready : readyTasks (descendingState N) = List.range N := by
    unfold readyTasks
    refine List.filter_eq_self.mpr ?_
    intro h _
    simp [stateOf, descendingState]
  rw [hinc, hready]
  rfl

theorem descendingState_all_run (N : Nat) (j : Nat) (hj : j < N) :
    stateOf (scheduleAll (descendingState N)) j = TaskState.running := by
  refine scheduleAll_all_run (descendingState N) ?_ j ?_
  · rw [descendingState_candidates, descendingState_freeCores]
  · rw [descendingState_candidates]
    exact List.mem_range.mpr hj

theorem vTaskResume_keeps_pinned (s : SchedulerState) (h N : Nat) (hhN : h ≠ N)
    (hcores : 0 < s.numCores) (hdep : s.suspendDepth = 0)
    (hocc : s.coreTable 0 = some N) (htcb : s.tcbs N = pinnedTCB) :
    (vTaskResume h s).coreTable 0 = some N ∧
    (vTaskResume h s).tcbs N = pinnedTCB ∧
    (vTaskResume h s).suspendDepth = 0 ∧
    0 < (vTaskResume h s).numCores := by
  have hNh : ¬ (N = h) := fun e => hhN e.symm
  unfold vTaskResume issueOp
  rw [if_neg (by omega)]
  have hm_tcbN : (applyDeferredOp s (DeferredOp.makeReady h)).tcbs N = s.tcbs N := by
    simp [applyDeferredOp, updateTCB, hNh]
  have hm_core : (applyDeferredOp s (DeferredOp.makeReady h)).coreTable = s.coreTable := by
    simp [applyDeferredOp, updateTCB]
  have hm_cores : (applyDeferredOp s (DeferredOp.makeReady h)).numCores = s.numCores := by
    simp [applyDeferredOp, updateTCB]
  have hm_dep : (applyDeferredOp s (DeferredOp.makeReady h)).suspendDepth = s.suspendDepth := by
    simp [applyDeferredOp, updateTCB]
  have hm_occ : (applyDeferredOp s (DeferredOp.makeReady h)).coreTable 0 = some N := by
    rw [hm_core]
    exact hocc
  have hm_pin : isPinned (applyDeferredOp s (DeferredOp.makeReady h)) N = true := by
    simp [isPinned, preemptionDisabledOf, stateOf, hm_tcbN, htcb, pinnedTCB]
  obtain ⟨hc1, hc2⟩ := scheduleAll_pinned_core (applyDeferredOp s (DeferredOp.makeReady h))
    0 N (by omega) hm_occ hm_pin
  refine ⟨hc1, ?_, ?_, ?_⟩
  · refine tcb_eq _ _ _ _ ?_ hc2 ?_
    · show prioOf (scheduleAll (applyDeferredOp s (DeferredOp.makeReady h))) N = 1
      rw [prioOf_scheduleAll]
      show ((applyDeferredOp s (DeferredOp.makeReady h)).tcbs N).priority = 1
      rw [hm_tcbN, htcb]
      rfl
    · show preemptionDisabledOf (scheduleAll (applyDeferredOp s (DeferredOp.makeReady h))) N
        = true
      rw [preemptionDisabledOf_scheduleAll]
      show ((applyDeferredOp s (DeferredOp.makeReady h)).tcbs N).preemptionDisabled = true
      rw [hm_tcbN, htcb]
      rfl
  · show (applyDeferredOp s (DeferredOp.makeReady h)).suspendDepth = 0
    rw [hm_dep]
    exact hdep
  · show 0 < (applyDeferredOp s (DeferredOp.makeReady h)).numCores
    rw [hm_cores]
    exact hcores

theorem foldl_resume_keeps_pinned (N : Nat) (l : List Nat) :
    ∀ s : SchedulerState, (∀ h ∈ l, h ≠ N) →
      0 < s.numCores → s.suspendDepth = 0 → s.coreTable 0 = some N →
      s.tcbs N = pinnedTCB →
      (l.foldl (fun s h => vTaskResume h s) s).coreTable 0 = some N ∧
      (l.foldl (fun s h => vTaskResume h s) s).tcbs N = pinnedTCB := by
  induction l with
  | nil =>
    intro s _ _ _ hocc htcb
    exact ⟨hocc, htcb⟩
  | cons h rest ih =>
    intro s hmem hcores hdep hocc htcb
    rw [List.foldl_cons]
    obtain ⟨k1, k2, k3, k4⟩ :=
      vTaskResume_keeps_pinned s h N (hmem h (List.mem_cons_self h rest)) hcores hdep hocc htcb
    exact ih (vTaskResume h s) (fun x hx => hmem x (List.mem_cons_of_mem h hx)) k4 k3 k1 k2

/-! Further structural helper lemmas. -/

theorem freeCores_length_le (s : SchedulerState) :
    (freeCores s).length ≤ s.numCores := by
  unfold freeCores
  calc (List.filter (fun c => ! corePinned s c) (List.range s.numCores)).length
      ≤ (List.range s.numCores).length := List.length_filter_le _ _
    _ = s.numCores := List.length_range s.numCores

theorem applyDeferredOp_depth (s : SchedulerState) (op : DeferredOp) :
    (applyDeferredOp s op).suspendDepth = s.suspendDepth := by
  cases op <;> rfl

theorem foldl_applyDeferredOp_depth (ops : List DeferredOp) :
    ∀ s : SchedulerState, (ops.foldl applyDeferredOp s).suspendDepth = s.suspendDepth := by
  induction ops with
  | nil => intro s; rfl
  | cons op rest ih =>
    intro s
    rw [List.foldl_cons, ih, applyDeferredOp_depth]

theorem replayDeferred_depth (s : SchedulerState) :
    (replayDeferred s).suspendDepth = 0 := by
  unfold replayDeferred
  rw [foldl_applyDeferredOp_depth]

theorem stateOf_enablePreemption (caller : Nat) (xT : Option Nat) (s : SchedulerState)
    (h : Nat) : stateOf (vTaskEnablePreemption caller xT s) h = stateOf s h := by
  unfold stateOf vTaskEnablePreemption updateTCB
  dsimp only
  split <;> rfl

theorem prioOf_enablePreemption (caller : Nat) (xT : Option Nat) (s : SchedulerState)
    (h : Nat) : prioOf (vTaskEnablePreemption caller xT s) h = prioOf s h := by
  unfold prioOf vTaskEnablePreemption updateTCB
  dsimp only
  split <;> rfl

theorem preemptionDisabledOf_enablePreemption_self (caller T : Nat) (s : SchedulerState) :
    preemptionDisabledOf (vTaskEnablePreemption caller (some T) s) T = false := by
  unfold preemptionDisabledOf vTaskEnablePreemption updateTCB resolveHandle
  simp

theorem readyTasks_enablePreemption (caller : Nat) (xT : Option Nat) (s : SchedulerState) :
    readyTasks (vTaskEnablePreemption caller xT s) = readyTasks s := by
  unfold readyTasks
  have hnt : (vTaskEnablePreemption caller xT s).numTasks = s.numTasks := rfl
  rw [hnt]
  refine List.filter_congr ?_
  intro h _
  rw [stateOf_enablePreemption]

/-! Helper lemmas for the round-robin rotation model. -/

theorem ringAfter_eq_rotate (ring : List Nat) (n : Nat) :
    ringAfter ring n = ring.rotate n := by
  induction n with
  | zero =>
    show ring = ring.rotate 0
    rw [List.rotate_zero]
  | succ k ih =>
    show tickRotate (ringAfter ring k) = ring.rotate (k + 1)
    rw [ih]
    unfold tickRotate
    rw [List.rotate_rotate]

theorem get_take_eq (l : List Nat) (n i : Nat) (hlt : i < (l.take n).length)
    (h : i < l.length) : (l.take n).get ⟨i, hlt⟩ = l.get ⟨i, h⟩ := by
  rw [List.get_eq_getElem, List.get_eq_getElem]
  exact List.getElem_take l

theorem get_mem_take (l : List Nat) (n i : Nat) (h : i < l.length) (hin : i < n) :
    l.get ⟨i, h⟩ ∈ l.take n := by
  have hlt : i < (l.take n).length := by
    rw [List.length_take]
    omega
  rw [← get_take_eq l n i hlt h]
  exact List.get_mem _ _ _

/-! Helper lemmas for the serialized counter sections. -/

theorem incLoop_agree (n : Nat) : ∀ c : Int,
    incLoop n c c true = (c + n, c + n, true) := by
  induction n with
  | zero =>
    intro c
    show (c, c, true) = (c + (0 : Nat), c + (0 : Nat), true)
    norm_num
  | succ k ih =>
    intro c
    show incLoop k (c + 1) (c + 1) (true && decide (c + 1 = c + 1)) = _
    rw [show (true && decide (c + 1 = c + 1)) = true by simp]
    rw [ih (c + 1)]
    have h1 : c + 1 + (k : Int) = c + ((k + 1 : Nat) : Int) := by
      push_cast
      ring
    rw [h1]

theorem loopIncCounter_spec (c : Int) :
    loopIncCounter c = (c + (TASK_INCREASE_COUNTER_TIMES : Int), true) := by
  unfold loopIncCounter
  rw [incLoop_agree TASK_INCREASE_COUNTER_TIMES c]

theorem runIncTasks_spec (M : Nat) : ∀ c : Int,
    runIncTasks M c = (c + ((M * TASK_INCREASE_COUNTER_TIMES : Nat) : Int), true) := by
  induction M with
  | zero =>
    intro c
    show (c, true) = _
    norm_num
  | succ m ih =>
    intro c
    show ((runIncTasks m (loopIncCounter c).1).1,
        (loopIncCounter c).2 && (runIncTasks m (loopIncCounter c).1).2) = _
    rw [loopIncCounter_spec c]
    dsimp only
    rw [ih (c + (TASK_INCREASE_COUNTER_TIMES : Int))]
    dsimp only
    rw [Bool.and_true]
    have h1 : c + (TASK_INCREASE_COUNTER_TIMES : Int) +
        ((m * TASK_INCREASE_COUNTER_TIMES : Nat) : Int) =
        c + (((m + 1) * TASK_INCREASE_COUNTER_TIMES : Nat) : Int) := by
      push_cast
      ring
    rw [h1]

/-! Claim theorems. -/

/-- Claim C1: Priority correctness.  After a core-assignment evaluation no
Ready task has a higher priority than any Running task whose preemption is
enabled (first and second conjunct: a higher-priority task A cannot remain
Ready while the lower-priority B keeps Running, so the evaluation results
in A Running or B demoted); and in the schedule_highest_priority.c scenario
of N cores and N tasks of strictly descending priority, whenever a task is
Running after the evaluation, every task of higher priority is Running as
well (third conjunct). -/
theorem priority_correctness (s : SchedulerState) (hwf : RunningOnCore s) (N : Nat) :
    (∀ A B, A < s.numTasks → B < s.numTasks →
      stateOf (scheduleAll s) A = TaskState.ready →
      stateOf (scheduleAll s) B = TaskState.running →
      preemptionDisabledOf (scheduleAll s) B = false →
      prioOf (scheduleAll s) A ≤ prioOf (scheduleAll s) B) ∧
    (∀ A B, A < s.numTasks → B < s.numTasks →
      prioOf s B < prioOf s A → preemptionDisabledOf s B = false →
      stateOf (scheduleAll s) A = TaskState.ready →
      stateOf (scheduleAll s) B ≠ TaskState.running) ∧
    (∀ i j, i < N → j < N →
      stateOf (scheduleAll (descendingState N)) i = TaskState.running →
      prioOf (descendingState N) i < prioOf (descendingState N) j →
      stateOf (scheduleAll (descendingState N)) j = TaskState.running) := by
  refine ⟨?_, ?_, ?_⟩
  · intro A B hA hB h1 h2 h3
    exact scheduleAll_no_inversion s hwf A B hA hB h1 h2 h3
  · intro A B hA hB hp hf h1 h2
    have h3 : preemptionDisabledOf (scheduleAll s) B = false := by
      rw [preemptionDisabledOf_scheduleAll]
      exact hf
    have h4 := scheduleAll_no_inversion s hwf A B hA hB h1 h2 h3
    rw [prioOf_scheduleAll, prioOf_scheduleAll] at h4
    omega
  · intro i j _ hj _ _
    exact descendingState_all_run N j hj

/-- Witness for C1 on an explicit state: one core runs the lower-priority
task 0 while the higher-priority task 1 is Ready. -/
theorem priority_correctness_witness :
    RunningOnCore c1WitnessState ∧
    ((∀ A B, A < c1WitnessState.numTasks → B < c1WitnessState.numTasks →
      stateOf (scheduleAll c1WitnessState) A = TaskState.ready →
      stateOf (scheduleAll c1WitnessState) B = TaskState.running →
      preemptionDisabledOf (scheduleAll c1WitnessState) B = false →
      prioOf (scheduleAll c1WitnessState) A ≤ prioOf (scheduleAll c1WitnessState) B) ∧
    (∀ A B, A < c1WitnessState.numTasks → B < c1WitnessState.numTasks →
      prioOf c1WitnessState B < prioOf c1WitnessState A →
      preemptionDisabledOf c1WitnessState B = false →
      stateOf (scheduleAll c1WitnessState) A = TaskState.ready →
      stateOf (scheduleAll c1WitnessState) B ≠ TaskState.running) ∧
    (∀ i j, i < 2 → j < 2 →
      stateOf (scheduleAll (descendingState 2)) i = TaskState.running →
      prioOf (descendingState 2) i < prioOf (descendingState 2) j →
      stateOf (scheduleAll (descendingState 2)) j = TaskState.running)) :=
  ⟨by decide, priority_correctness c1WitnessState (by decide) 2⟩

/-- Claim C2: Preemption-disable exclusivity.  A Running task whose
preemption-disable flag is set keeps its core across any core-assignment
evaluation (first conjunct), and in the disable_preemption.c scenario the
lowest-priority task N, after disabling its own preemption and resuming the
N higher-priority tasks, is still executing on core 0 (second conjunct). -/
theorem preemption_disable_exclusivity (s : SchedulerState) (c h : Nat)
    (hc : c < s.numCores) (hocc : s.coreTable c = some h)
    (hdis : preemptionDisabledOf s h = true) (hrun : stateOf s h = TaskState.running)
    (N : Nat) (hN : 0 < N) :
    ((scheduleAll s).coreTable c = some h ∧
      stateOf (scheduleAll s) h = TaskState.running) ∧
    ((afterPreemptionDisableResumes N).coreTable 0 = some N ∧
      eTaskGetState (afterPreemptionDisableResumes N) N = TaskState.running) := by
  constructor
  · exact scheduleAll_pinned_core s c h hc hocc (by simp [isPinned, hdis, hrun])
  · have hstart1 : (vTaskDisablePreemption N none (preemptionScenarioBase N)).tcbs N
        = pinnedTCB := by
      unfold vTaskDisablePreemption updateTCB resolveHandle preemptionScenarioBase pinnedTCB
      simp
    have hstart2 : (vTaskDisablePreemption N none (preemptionScenarioBase N)).coreTable 0
        = some N := by
      unfold vTaskDisablePreemption updateTCB preemptionScenarioBase
      simp
    have hstart3 : (vTaskDisablePreemption N none (preemptionScenarioBase N)).suspendDepth
        = 0 := rfl
    have hstart4 : 0 < (vTaskDisablePreemption N none (preemptionScenarioBase N)).numCores :=
      hN
    obtain ⟨k1, k2⟩ := foldl_resume_keeps_pinned N (List.range N) _
      (fun x hx => by have := List.mem_range.mp hx; omega) hstart4 hstart3 hstart2 hstart1
    refine ⟨k1, ?_⟩
    have hk2 : (afterPreemptionDisableResumes N).tcbs N = pinnedTCB := k2
    show ((afterPreemptionDisableResumes N).tcbs N).state = TaskState.running
    rw [hk2]
    rfl

/-- Witness for C2 on an explicit state: one core runs the pinned task 0
while the higher-priority task 1 is Ready, with the scenario at N = 1. -/
theorem preemption_disable_exclusivity_witness :
    (0 < c2WitnessState.numCores ∧ c2WitnessState.coreTable 0 = some 0 ∧
      preemptionDisabledOf c2WitnessState 0 = true ∧
      stateOf c2WitnessState 0 = TaskState.running ∧ 0 < 1) ∧
    (((scheduleAll c2WitnessState).coreTable 0 = some 0 ∧
      stateOf (scheduleAll c2WitnessState) 0 = TaskState.running) ∧
    ((afterPreemptionDisableResumes 1).coreTable 0 = some 1 ∧
      eTaskGetState (afterPreemptionDisableResumes 1) 1 = TaskState.running)) :=
  ⟨⟨by decide, by decide, by decide, by decide, by decide⟩,
    preemption_disable_exclusivity c2WitnessState 0 0 (by decide) (by decide) (by decide)
      (by decide) 1 (by decide)⟩

/-- Claim C3: Scheduler-suspension exclusion.  While suspendDepth is
positive, any sequence of readiness-changing operations (priority raises,
resumes, suspends) leaves the TCB store and the core-run-table untouched,
only appends to the deferred log, and in particular no task changes to or
from the Running state before the matching resume: the mutations are
invisible to the core-assignment engine. -/
theorem scheduler_suspension_exclusion (s : SchedulerState) (ops : List DeferredOp)
    (hd : 0 < s.suspendDepth) :
    (ops.foldl issueOp s).tcbs = s.tcbs ∧
    (ops.foldl issueOp s).coreTable = s.coreTable ∧
    (ops.foldl issueOp s).suspendDepth = s.suspendDepth ∧
    (ops.foldl issueOp s).deferred = s.deferred ++ ops ∧
    (∀ h, stateOf (ops.foldl issueOp s) h = TaskState.running ↔
      stateOf s h = TaskState.running) := by
  obtain ⟨h1, h2, h3, _, _, h6⟩ := foldl_issueOp_suspended ops s hd
  refine ⟨h1, h2, h3, h6, ?_⟩
  intro h
  show ((ops.foldl issueOp s).tcbs h).state = _ ↔ _
  rw [h1]
  exact Iff.rfl

/-- Witness for C3 on an explicit state: a priority raise of task 1 above
the caller issued at depth 1 defers and changes nothing. -/
theorem scheduler_suspension_exclusion_witness :
    0 < c3WitnessState.suspendDepth ∧
    (([DeferredOp.setPriority 1 9].foldl issueOp c3WitnessState).tcbs =
        c3WitnessState.tcbs ∧
      ([DeferredOp.setPriority 1 9].foldl issueOp c3WitnessState).coreTable =
        c3WitnessState.coreTable ∧
      ([DeferredOp.setPriority 1 9].foldl issueOp c3WitnessState).suspendDepth =
        c3WitnessState.suspendDepth ∧
      ([DeferredOp.setPriority 1 9].foldl issueOp c3WitnessState).deferred =
        c3WitnessState.deferred ++ [DeferredOp.setPriority 1 9] ∧
      (∀ h, stateOf ([DeferredOp.setPriority 1 9].foldl issueOp c3WitnessState) h =
        TaskState.running ↔ stateOf c3WitnessState h = TaskState.running)) :=
  ⟨by decide,
    scheduler_suspension_exclusion c3WitnessState [DeferredOp.setPriority 1 9] (by decide)⟩

/-- Claim C4: Inline preemption on resume.  When xTaskResumeAll takes
suspendDepth from 1 to 0, the state it returns already reflects the
core-assignment evaluation over the replayed deferred operations: the lock
is fully released, no task made eligible during the window is still waiting
behind a lower-priority preemptible Running task, and when the replayed
operations leave at least numCores Ready tasks of higher priority than the
preemptible caller, the caller itself has been preempted inline and is
Ready when the call returns. -/
theorem resume_inline_preemption (s : SchedulerState) (caller : Nat)
    (hd : s.suspendDepth = 1) (hwf : RunningOnCore (replayDeferred s)) :
    ∀ r, xTaskResumeAll s = Except.ok r →
      r.suspendDepth = 0 ∧
      (∀ A B, A < r.numTasks → B < r.numTasks →
        stateOf r A = TaskState.ready → stateOf r B = TaskState.running →
        preemptionDisabledOf r B = false → prioOf r A ≤ prioOf r B) ∧
      (stateOf (replayDeferred s) caller = TaskState.running →
        preemptionDisabledOf (replayDeferred s) caller = false →
        (replayDeferred s).numCores ≤
          List.countP
            (fun x => decide (prioOf (replayDeferred s) caller <
              prioOf (replayDeferred s) x))
            (readyTasks (replayDeferred s)) →
        stateOf r caller = TaskState.ready) := by
  intro r hok
  have hr : r = scheduleAll (replayDeferred s) := by
    unfold xTaskResumeAll at hok
    rw [if_neg (by omega), if_pos hd] at hok
    cases hok
    rfl
  subst hr
  refine ⟨?_, ?_, ?_⟩
  · show (replayDeferred s).suspendDepth = 0
    exact replayDeferred_depth s
  · intro A B hA hB h1 h2 h3
    exact scheduleAll_no_inversion (replayDeferred s) hwf A B hA hB h1 h2 h3
  · intro hrun hnd hcount
    refine scheduleAll_demote (replayDeferred s) caller hrun hnd ?_
    have h1 := freeCores_length_le (replayDeferred s)
    have h2 : List.countP
        (fun x => decide (prioOf (replayDeferred s) caller < prioOf (replayDeferred s) x))
        (candidates (replayDeferred s)) =
        List.countP
          (fun x => decide (prioOf (replayDeferred s) caller < prioOf (replayDeferred s) x))
          (incumbents (replayDeferred s)) +
        List.countP
          (fun x => decide (prioOf (replayDeferred s) caller < prioOf (replayDeferred s) x))
          (readyTasks (replayDeferred s)) := by
      unfold candidates
      exact List.countP_append _ _ _
    omega

/-- Witness for C4 on an explicit state: the caller task 0 runs on the only
core at depth 1 with a deferred resume of the higher-priority task 1. -/
theorem resume_inline_preemption_witness :
    c4WitnessState.suspendDepth = 1 ∧ RunningOnCore (replayDeferred c4WitnessState) ∧
    (∀ r, xTaskResumeAll c4WitnessState = Except.ok r →
      r.suspendDepth = 0 ∧
      (∀ A B, A < r.numTasks → B < r.numTasks →
        stateOf r A = TaskState.ready → stateOf r B = TaskState.running →
        preemptionDisabledOf r B = false → prioOf r A ≤ prioOf r B) ∧
      (stateOf (replayDeferred c4WitnessState) 0 = TaskState.running →
        preemptionDisabledOf (replayDeferred c4WitnessState) 0 = false →
        (replayDeferred c4WitnessState).numCores ≤
          List.countP
            (fun x => decide (prioOf (replayDeferred c4WitnessState) 0 <
              prioOf (replayDeferred c4WitnessState) x))
            (readyTasks (replayDeferred c4WitnessState)) →
        stateOf r 0 = TaskState.ready)) :=
  ⟨rfl, by decide, resume_inline_preemption c4WitnessState 0 rfl (by decide)⟩

/-- Claim C5: Suspend/resume counter atomicity.  M tasks each increment the
shared counter TASK_INCREASE_COUNTER_TIMES times inside their own
vTaskSuspendAll/xTaskResumeAll section; the sections are serialized, every
per-increment consistency check of loopIncCounter passes, and the final
counter equals the start value plus M times TASK_INCREASE_COUNTER_TIMES,
with no lost updates, for every number of tasks M. -/
theorem suspendall_counter_atomicity (M : Nat) (c : Int) :
    runIncTasks M c = (c + ((M * TASK_INCREASE_COUNTER_TIMES : Nat) : Int), true) :=
  runIncTasks_spec M c

/-- Claim C6: Round-robin fairness.  With a positive number of cores and
one more equal-priority never-blocking task than cores, every task of the
level reaches the Running window within at most one full rotation of the
level (a bounded number of ticks). -/
theorem round_robin_fairness (cores : Nat) (ring : List Nat)
    (hc : 0 < cores) (hlen : ring.length = cores + 1) :
    ∀ t ∈ ring, ranWithin cores ring ring.length t := by
  intro t ht
  obtain ⟨j, hj, hget⟩ := List.mem_iff_getElem.mp ht
  by_cases hjc : j < cores
  · refine ⟨0, Nat.zero_le _, ?_⟩
    show t ∈ List.take cores ring
    have hmem := get_mem_take ring cores j hj hjc
    have hval : ring.get ⟨j, hj⟩ = t := by
      rw [List.get_eq_getElem]
      exact hget
    rw [hval] at hmem
    exact hmem
  · push_neg at hjc
    refine ⟨j + 1 - cores, by omega, ?_⟩
    show t ∈ List.take cores (ringAfter ring (j + 1 - cores))
    rw [ringAfter_eq_rotate]
    have hrl : cores - 1 < (ring.rotate (j + 1 - cores)).length := by
      rw [List.length_rotate]
      omega
    have hmem := get_mem_take (ring.rotate (j + 1 - cores)) cores (cores - 1) hrl (by omega)
    have hval : (ring.rotate (j + 1 - cores)).get ⟨cores - 1, hrl⟩ = t := by
      rw [List.get_eq_getElem]
      rw [List.getElem_rotate ring (j + 1 - cores) (cores - 1) hrl]
      have hidx : (cores - 1 + (j + 1 - cores)) % ring.length = j := by
        have h4 : cores - 1 + (j + 1 - cores) = j := by omega
        rw [h4]
        exact Nat.mod_eq_of_lt hj
      simp only [hidx]
      exact hget
    rw [hval] at hmem
    exact hmem

/-- Witness for C6 on an explicit level: two cores, three tasks; the third
task reaches the Running window within three ticks. -/
theorem round_robin_fairness_witness :
    0 < 2 ∧ ([10, 11, 12] : List Nat).length = 2 + 1 ∧
      (∀ t ∈ ([10, 11, 12] : List Nat), ranWithin 2 [10, 11, 12] ([10, 11, 12] : List Nat).length t) :=
  ⟨by decide, by decide, round_robin_fairness 2 [10, 11, 12] (by decide) (by decide)⟩

/-- Claim C7: Resume without matching suspend.  Calling xTaskResumeAll at
suspendDepth 0 is a defined contract violation that leaves no successor
state, and every successful xTaskResumeAll decrements suspendDepth by
exactly one, so the counter never underflows. -/
theorem resume_without_suspend_safe (s : SchedulerState) :
    (s.suspendDepth = 0 →
      xTaskResumeAll s = Except.error SchedError.contractViolation) ∧
    (∀ r, xTaskResumeAll s = Except.ok r → s.suspendDepth = r.suspendDepth + 1) := by
  constructor
  · intro h0
    unfold xTaskResumeAll
    rw [if_pos h0]
  · intro r hok
    unfold xTaskResumeAll at hok
    by_cases h0 : s.suspendDepth = 0
    · rw [if_pos h0] at hok
      cases hok
    · rw [if_neg h0] at hok
      by_cases h1 : s.suspendDepth = 1
      · rw [if_pos h1] at hok
        cases hok
        have hz : (scheduleAll (replayDeferred s)).suspendDepth = 0 := by
          show (replayDeferred s).suspendDepth = 0
          exact replayDeferred_depth s
        omega
      · rw [if_neg h1] at hok
        cases hok
        show s.suspendDepth = s.suspendDepth - 1 + 1
        omega

/-- Witness for C7 on an explicit state at depth 0: the call reports the
contract violation. -/
theorem resume_without_suspend_safe_witness :
    xTaskResumeAll c7WitnessState = Except.error SchedError.contractViolation :=
  (resume_without_suspend_safe c7WitnessState).1 rfl

/-- Claim C8: Re-enable by name yields the core.  For a Running task T with
its preemption-disable flag set, clearing the flag by handle and running
the next core-assignment evaluation, while at least numCores Ready tasks
of higher priority than T exist, removes T from every core and
eTaskGetState then reports T as Ready. -/
theorem enable_preemption_by_handle_yields (s : SchedulerState) (caller T : Nat)
    (hrun : stateOf s T = TaskState.running)
    (hcount : s.numCores ≤
      List.countP (fun x => decide (prioOf s T < prioOf s x)) (readyTasks s)) :
    eTaskGetState (scheduleAll (vTaskEnablePreemption caller (some T) s)) T
      = TaskState.ready ∧
    (∀ c, c < s.numCores →
      (scheduleAll (vTaskEnablePreemption caller (some T) s)).coreTable c ≠ some T) := by
  have hst2 : stateOf (vTaskEnablePreemption caller (some T) s) T = TaskState.running := by
    rw [stateOf_enablePreemption]
    exact hrun
  have hnd2 := preemptionDisabledOf_enablePreemption_self caller T s
  have hpred : (fun x => decide (prioOf (vTaskEnablePreemption caller (some T) s) T
      < prioOf (vTaskEnablePreemption caller (some T) s) x))
      = (fun x => decide (prioOf s T < prioOf s x)) := by
    funext x
    rw [prioOf_enablePreemption, prioOf_enablePreemption]
  have hcount2 : (freeCores (vTaskEnablePreemption caller (some T) s)).length ≤
      List.countP (fun x => decide (prioOf (vTaskEnablePreemption caller (some T) s) T
        < prioOf (vTaskEnablePreemption caller (some T) s) x))
        (candidates (vTaskEnablePreemption caller (some T) s)) := by
    have h1 : List.countP
        (fun x => decide (prioOf (vTaskEnablePreemption caller (some T) s) T
          < prioOf (vTaskEnablePreemption caller (some T) s) x))
        (readyTasks (vTaskEnablePreemption caller (some T) s)) =
        List.countP (fun x => decide (prioOf s T < prioOf s x)) (readyTasks s) := by
      rw [hpred, readyTasks_enablePreemption]
    have h2 : List.countP
        (fun x => decide (prioOf (vTaskEnablePreemption caller (some T) s) T
          < prioOf (vTaskEnablePreemption caller (some T) s) x))
        (candidates (vTaskEnablePreemption caller (some T) s)) =
        List.countP
          (fun x => decide (prioOf (vTaskEnablePreemption caller (some T) s) T
            < prioOf (vTaskEnablePreemption caller (some T) s) x))
          (incumbents (vTaskEnablePreemption caller (some T) s)) +
        List.countP
          (fun x => decide (prioOf (vTaskEnablePreemption caller (some T) s) T
            < prioOf (vTaskEnablePreemption caller (some T) s) x))
          (readyTasks (vTaskEnablePreemption caller (some T) s)) := by
      unfold candidates
      exact List.countP_append _ _ _
    have h3 := freeCores_length_le (vTaskEnablePreemption caller (some T) s)
    have h4 : (vTaskEnablePreemption caller (some T) s).numCores = s.numCores := rfl
    omega
  constructor
  · show stateOf (scheduleAll (vTaskEnablePreemption caller (some T) s)) T = TaskState.ready
    exact scheduleAll_demote _ T hst2 hnd2 hcount2
  · intro c hc hcontra
    have hc2 : c < (vTaskEnablePreemption caller (some T) s).numCores := hc
    have hcoreEq : (scheduleAll (vTaskEnablePreemption caller (some T) s)).coreTable c
        = newCoreAt (vTaskEnablePreemption caller (some T) s) c := by
      show (if c < (vTaskEnablePreemption caller (some T) s).numCores then _ else none) = _
      rw [if_pos hc2]
    rw [hcoreEq] at hcontra
    unfold newCoreAt at hcontra
    by_cases hpin : corePinned (vTaskEnablePreemption caller (some T) s) c = true
    · rw [if_pos hpin] at hcontra
      have hfalse : corePinned (vTaskEnablePreemption caller (some T) s) c = false := by
        simp [corePinned, hcontra, isPinned, hnd2]
      rw [hfalse] at hpin
      cases hpin
    · rw [if_neg hpin] at hcontra
      have hTmem : T ∈ chosen (vTaskEnablePreemption caller (some T) s) :=
        List.get?_mem hcontra
      exact not_mem_chosen_of_high_count _ T hcount2 hTmem

/-- Witness for C8 on an explicit state: the pinned task 0 on core 0 of two
cores, two higher-priority Ready tasks; clearing the flag by handle demotes
it. -/
theorem enable_preemption_by_handle_yields_witness :
    stateOf c8WitnessState 0 = TaskState.running ∧
    c8WitnessState.numCores ≤
      List.countP (fun x => decide (prioOf c8WitnessState 0 < prioOf c8WitnessState x))
        (readyTasks c8WitnessState) ∧
    (eTaskGetState (scheduleAll (vTaskEnablePreemption 0 (some 0) c8WitnessState)) 0
      = TaskState.ready ∧
    (∀ c, c < c8WitnessState.numCores →
      (scheduleAll (vTaskEnablePreemption 0 (some 0) c8WitnessState)).coreTable c
        ≠ some 0)) :=
  ⟨by decide, by decide,
    enable_preemption_by_handle_yields c8WitnessState 0 0 (by decide) (by decide)⟩

/-- Claim C9: NULL handle denotes the caller.  vTaskDisablePreemption with
a NULL handle sets the preemption-disable flag of the calling task itself
and of no other task, and vTaskSuspend with a NULL handle moves the caller
itself to the Suspended state, observable through eTaskGetState. -/
theorem null_handle_is_self (s : SchedulerState) (caller : Nat)
    (hdep : s.suspendDepth = 0) (hnotdel : stateOf s caller ≠ TaskState.deleted) :
    preemptionDisabledOf (vTaskDisablePreemption caller none s) caller = true ∧
    (∀ j, j ≠ caller → (vTaskDisablePreemption caller none s).tcbs j = s.tcbs j) ∧
    eTaskGetState (vTaskSuspend caller none s) caller = TaskState.suspended := by
  refine ⟨?_, ?_, ?_⟩
  · unfold preemptionDisabledOf vTaskDisablePreemption updateTCB resolveHandle
    simp
  · intro j hj
    unfold vTaskDisablePreemption updateTCB resolveHandle
    dsimp only
    rw [if_neg hj]
  · show stateOf (vTaskSuspend caller none s) caller = TaskState.suspended
    unfold vTaskSuspend issueOp
    rw [if_neg (by omega)]
    refine scheduleAll_suspended _ caller ?_
    have hne : ((s.tcbs caller).state == TaskState.deleted) = false := by
      have h1 : (s.tcbs caller).state ≠ TaskState.deleted := hnotdel
      simp [h1]
    show ((applyDeferredOp s (DeferredOp.suspendTask (resolveHandle caller none))).tcbs
      caller).state = TaskState.suspended
    unfold applyDeferredOp updateTCB resolveHandle
    dsimp only
    simp [hne]

/-- Witness for C9 on an explicit state: the Running task 0 as caller. -/
theorem null_handle_is_self_witness :
    c9WitnessState.suspendDepth = 0 ∧
    stateOf c9WitnessState 0 ≠ TaskState.deleted ∧
    (preemptionDisabledOf (vTaskDisablePreemption 0 none c9WitnessState) 0 = true ∧
    (∀ j, j ≠ 0 → (vTaskDisablePreemption 0 none c9WitnessState).tcbs j =
      c9WitnessState.tcbs j) ∧
    eTaskGetState (vTaskSuspend 0 none c9WitnessState) 0 = TaskState.suspended) :=
  ⟨rfl, by decide, null_handle_is_self c9WitnessState 0 rfl (by decide)⟩

/-- Claim C10: Tick wrap-around.  The elapsed-time computation of the test
files, the C unsigned subtraction xTaskGetTickCount() - xStartTick on
32-bit TickType_t values, returns the true elapsed tick count for every
pair of readings, in particular when the tick counter wraps around between
them. -/
theorem tick_elapsed_wraparound (start e : Nat) (hs : start < TICK_MOD)
    (he : e < TICK_MOD) : elapsedTicks ((start + e) % TICK_MOD) start = e := by
  have hT : TICK_MOD = 4294967296 := by norm_num [TICK_MOD]
  rw [hT] at hs he
  show ((start + e) % TICK_MOD + TICK_MOD - start) % TICK_MOD = e
  rw [hT]
  omega

/-- Witness for C10 at a wrapping pair of readings: a start tick 6 below
the wrap point and 100 elapsed ticks. -/
theorem tick_elapsed_wraparound_witness :
    4294967290 < TICK_MOD ∧ 100 < TICK_MOD ∧
      elapsedTicks ((4294967290 + 100) % TICK_MOD) 4294967290 = 100 :=
  ⟨by norm_num [TICK_MOD], by norm_num [TICK_MOD],
    tick_elapsed_wraparound 4294967290 100 (by norm_num [TICK_MOD])
      (by norm_num [TICK_MOD])⟩

end FreeRTOSModel
